import Mathlib

/-!
# Shallow embedding of the sf-Profile-Splitter split/merge core

This file embeds the in-memory transformation performed by
`src/commands/metadata/profiles/split.ts` (`Split.run`, `Split.splitProfile`)
and `src/commands/metadata/profiles/merge.ts` (`Merge.run`, `Merge.mergeProfile`).

Modelling conventions, matching how the TypeScript manipulates the objects
produced by the `xml2js` parser:

* A parsed profile document is a JS object mapping each top-level element name
  to the array of its parsed children, plus the scalar `_xmlns` property that
  the code reads (`profile._xmlns`) and writes.  We model it as `Profile`:
  an optional `_xmlns` string plus an association list from category name to
  the list of child items.  A JS object cannot hold two values under one key,
  so `_xmlns` lives outside the `entries` list.
* A child of a category array is either a plain string (a text-only element)
  or an object mapping field names to arrays of strings (`Item`).  The parser
  never produces an empty array for a present field, so a field value is kept
  as its first string plus the remaining strings.
* `Math.random()*10000` in the fallback naming branch is an external source of
  nondeterminism; it is modelled as an oracle, consulted per item position,
  whose value is reduced `% 10000` (mirroring `Math.floor` of a value below
  10000).
* The filesystem is modelled as association lists: a category directory maps
  file names to the document written there (`fs.writeFileSync` on an existing
  name overwrites in place), and a split tree maps category directory names to
  directories.
* Serializing an artifact with `xml2js.Builder` and re-parsing it on the merge
  side is the codec round trip, a semantic no-op per the codec contract; the
  merge input therefore carries the artifact document itself.  Artifact files
  that fail to parse are carried as `Except.error` with the parse message.
* `this.error(...)` reports a per-unit failure: the message is appended to the
  run's report log and processing continues with the next unit, which is the
  per-unit isolation behaviour of the surrounding try/catch structure.
-/

/-- A field value as produced by the xml2js parser for a present field:
the first string of the child array plus the remaining strings
(`item.field` is the array, `item.field[0]` its head, always present). -/
abbrev FieldVal := String × List String

/-- One child of a category array: either a text-only child (a JS string,
which `typeof item === 'object'` rejects) or a permission record, an object
mapping field names to their child arrays. -/
inductive Item where
  | str (s : String)
  | obj (fields : List (String × FieldVal))
deriving DecidableEq

/-- `true` exactly on object children, i.e. on records
(`typeof item === 'object'`). -/
def Item.isObj : Item → Bool
  | .str _ => false
  | .obj _ => true

/-- A parsed profile document: the scalar `_xmlns` property the code reads and
writes, plus the top-level element entries (category name to child array). -/
structure Profile where
  xmlns : Option String
  entries : List (String × List Item)
deriving DecidableEq

/-- JS property lookup `item.f` on a record object. -/
def getField (fields : List (String × FieldVal)) (f : String) : Option FieldVal :=
  (fields.find? (fun p => p.1 == f)).map Prod.snd

/-- JS property lookup `profile[k]` among the array-valued entries. -/
def getEntry (p : Profile) (k : String) : Option (List Item) :=
  (p.entries.find? (fun e => e.1 == k)).map Prod.snd

/-- The JS test `item.f && item.f[0]`: the field is present and its first
value is a truthy string (non-empty). -/
def truthyFirst (v : Option FieldVal) : Option String :=
  match v with
  | some (h, _) => if h = "" then none else some h
  | none => none

/-- The item-naming chain of `Split.splitProfile` (split.ts lines 123-143):
`name` wins whenever present (`if (item.name)`); each later candidate
additionally requires a truthy first value (`item.x && item.x[0]`);
`layout` values have `/` replaced by `-` and `field` values have `.`
replaced by `-`; otherwise the name is `item-` followed by the random
draw below 10000. -/
def itemName (rand : Nat) (fields : List (String × FieldVal)) : String :=
  match getField fields "name" with
  | some v => v.1
  | none =>
    match truthyFirst (getField fields "application") with
    | some s => s
    | none =>
      match truthyFirst (getField fields "layout") with
      | some s => s.replace "/" "-"
      | none =>
        match truthyFirst (getField fields "object") with
        | some s => s
        | none =>
          match truthyFirst (getField fields "field") with
          | some s => s.replace "." "-"
          | none =>
            match truthyFirst (getField fields "apexClass") with
            | some s => s
            | none =>
              match truthyFirst (getField fields "apexPage") with
              | some s => s
              | none => "item-" ++ toString (rand % 10000)

/-- The single-record artifact document the splitter builds for one item:
`{ Profile: { [key]: [item], _xmlns: profile._xmlns } }`. -/
def artifactDoc (xm : Option String) (c : String) (it : Item) : Profile :=
  ⟨xm, [(c, [it])]⟩

/-- The chronological `fs.writeFileSync` events of one category loop of
`Split.splitProfile`: one write per object item (file name derived by
`itemName` from the oracle at the item's position, content the single-record
artifact); text-only children are skipped by `typeof item === 'object'`. -/
def categoryWrites (xm : Option String) (rng : Nat → Nat) (c : String) :
    Nat → List Item → List (String × Profile)
  | _, [] => []
  | i, it :: rest =>
    match it with
    | Item.str _ => categoryWrites xm rng c (i + 1) rest
    | Item.obj flds =>
        (itemName (rng i) flds ++ ".xml", artifactDoc xm c (Item.obj flds)) ::
          categoryWrites xm rng c (i + 1) rest

/-- A category directory on disk: file name to file content. -/
abbrev Dir := List (String × Profile)

/-- `fs.writeFileSync`: overwrite the file in place if the name exists,
otherwise create it at the end of the directory. -/
def writeFile (d : Dir) (fname : String) (content : Profile) : Dir :=
  if d.any (fun f => f.1 == fname) then
    d.map (fun f => if f.1 == fname then (fname, content) else f)
  else d ++ [(fname, content)]

/-- Replay a list of write events against a directory. -/
def replayWrites (d : Dir) (ws : List (String × Profile)) : Dir :=
  ws.foldl (fun d w => writeFile d w.1 w.2) d

/-- The final on-disk state of one category subdirectory after the splitter's
inner loop: the write events replayed against the freshly created directory. -/
def splitCategoryDir (xm : Option String) (rng : Nat → Nat) (c : String)
    (items : List Item) : Dir :=
  replayWrites [] (categoryWrites xm rng c 0 items)

/-- The split tree of one profile: category directory name to directory. -/
abbrev SplitTree := List (String × Dir)

/-- The split tree written by `Split.splitProfile` for a parsed profile:
for each entry whose array is non-empty (`Array.isArray(value) &&
value.length > 0`) a category subdirectory is created and its items are
written; empty entries are skipped.  The oracle is indexed by category name
and item position. -/
def splitTree (rng : String → Nat → Nat) (p : Profile) : SplitTree :=
  p.entries.foldl
    (fun t e =>
      if 0 < e.2.length then
        t ++ [(e.1, splitCategoryDir p.xmlns (rng e.1) e.1 e.2)]
      else t) []

/-- All artifact write events of one profile split, tagged with the category
directory they go to, in chronological order. -/
def splitWrites (rng : String → Nat → Nat) (p : Profile) :
    List (String × String × Profile) :=
  p.entries.foldl
    (fun ws e =>
      if 0 < e.2.length then
        ws ++ (categoryWrites p.xmlns (rng e.1) e.1 0 e.2).map (fun w => (e.1, w))
      else ws) []

/-- The report `this.error` emits when a profile document fails to parse
(split.ts line 159). -/
def splitErrorReport (profileName msg : String) : String :=
  "Error processing profile " ++ profileName ++ ": " ++ msg

/-- One unit of `Split.run`'s processing loop: `Split.splitProfile` on one
profile file.  On a parse failure the catch block reports the error and the
unit's work is abandoned (no directory is created).  On success the profile
directory `outputDir/profileName` is created (the `Except.ok` outcome) and
the split tree is written under it. -/
def splitUnit (rng : String → Nat → Nat) (profileName : String)
    (doc : Except String Profile) : Except String SplitTree :=
  match doc with
  | .error msg => .error (splitErrorReport profileName msg)
  | .ok p => .ok (splitTree rng p)

/-- Observable events of one `Split.run` invocation over a batch. -/
inductive RunEvent where
  | unitOk (profileName : String) (tree : SplitTree)
  | unitError (report : String)
  | deleteOriginal (profileName : String)
deriving DecidableEq

/-- The event `Split.run` records for one profile file of the batch. -/
def unitEvent (rng : String → String → Nat → Nat)
    (u : String × Except String Profile) : RunEvent :=
  match splitUnit (rng u.1) u.1 u.2 with
  | .error r => RunEvent.unitError r
  | .ok t => RunEvent.unitOk u.1 t

/-- `Split.run` over a batch of profile files (name and parse result): every
file is processed in order, then, if the delete flag is set, every original
file of the batch is deleted (split.ts lines 78-88). -/
def splitRun (rng : String → String → Nat → Nat) (shouldDelete : Bool)
    (files : List (String × Except String Profile)) : List RunEvent :=
  files.map (unitEvent rng) ++
    (if shouldDelete then files.map (fun u => RunEvent.deleteOriginal u.1) else [])

/-- `true` on deletion events. -/
def RunEvent.isDelete : RunEvent → Bool
  | .deleteOriginal _ => true
  | _ => false

/-- `true` on per-unit processing events. -/
def RunEvent.isProcessing : RunEvent → Bool
  | .deleteOriginal _ => false
  | _ => true

/-- The constant root attribute `Merge.mergeProfile` starts the merged
profile object with (merge.ts lines 98-100). -/
def canonicalNamespace : String := "http://soap.sforce.com/2006/04/metadata"

/-- The merge accumulation step
`if (!profile[categoryName]) profile[categoryName] = [];
profile[categoryName].push(...items)`: append the items to the category's
array, creating the entry at the end of the object if absent. -/
def pushItems (p : Profile) (cat : String) (items : List Item) : Profile :=
  if p.entries.any (fun e => e.1 == cat) then
    { p with entries := p.entries.map (fun e => if e.1 == cat then (e.1, e.2 ++ items) else e) }
  else
    { p with entries := p.entries ++ [(cat, items)] }

/-- The parse result of one artifact file on the merge side: either the parse
error message, or the root element name together with its parsed body
(`result.Profile` is the body exactly when the root is named `Profile`). -/
abbrev ArtifactParse := Except String (String × Profile)

/-- The JS `file.endsWith('.xml')` test, as a suffix test on the characters. -/
def strEndsWith (s suff : String) : Bool :=
  suff.data.isSuffixOf s.data

/-- Processing of one artifact file inside one category directory by
`Merge.mergeProfile` (merge.ts lines 121-143): a parse failure is caught and
reported with the file's name; a parsed document contributes its items only
when its root is `Profile` and it holds a non-empty array under the category
name, and is skipped silently otherwise. -/
def mergeStep (cat : String) (acc : Profile × List String)
    (f : String × ArtifactParse) : Profile × List String :=
  match f.2 with
  | .error msg =>
      (acc.1, acc.2 ++ ["Error processing item file " ++ f.1 ++ ": " ++ msg])
  | .ok (root, body) =>
      if root = "Profile" then
        match getEntry body cat with
        | some items => if 0 < items.length then (pushItems acc.1 cat items, acc.2) else acc
        | none => acc
      else acc

/-- Processing of one category subdirectory by `Merge.mergeProfile`: the
files whose names end in `.xml` are processed in enumeration order. -/
def mergeCategory (acc : Profile × List String)
    (cd : String × List (String × ArtifactParse)) : Profile × List String :=
  (cd.2.filter (fun f => strEndsWith f.1 ".xml")).foldl (mergeStep cd.1) acc

/-- `Merge.mergeProfile` over the category subdirectories of one profile
directory: starting from the profile object holding only the canonical
`_xmlns`, every category directory is processed in order; the result is the
merged document together with the per-artifact error reports. -/
def mergeProfileDoc (dirs : List (String × List (String × ArtifactParse))) :
    Profile × List String :=
  dirs.foldl mergeCategory (⟨some canonicalNamespace, []⟩, [])

/-- Reading a split tree back from disk for merging: every artifact that the
splitter serialized parses back to the document it was built from (the codec
round trip), with root element `Profile`. -/
def toMergeInput (t : SplitTree) : List (String × List (String × ArtifactParse)) :=
  t.map (fun d => (d.1, d.2.map (fun f => (f.1, Except.ok ("Profile", f.2)))))

/-- JS `item.f`, keeping only whether the field is present and its first
value (the claim's notion of a field being present). -/
def fieldIfPresent (f : String) (flds : List (String × FieldVal)) : Option String :=
  (getField flds f).map Prod.fst

/-- JS `item.f && item.f[0]`: the field is present with a truthy first value. -/
def fieldIfTruthy (f : String) (flds : List (String × FieldVal)) : Option String :=
  truthyFirst (getField flds f)

/-- Replace every occurrence of `a` in `s` by `b`. -/
def replaceAll (a b s : String) : String := s.replace a b

/-- First defined candidate of a precedence list, with a default. -/
def firstSomeD (l : List (Option String)) (dflt : String) : String :=
  match l with
  | [] => dflt
  | some s :: _ => s
  | none :: rest => firstSomeD rest dflt

/-- The naming rule exactly as claim C6 words it: the ordered precedence list
`name`, `application`, `layout` (with `/` becoming `-`), `object`, `field`
(with `.` becoming `-`), `apexClass`, `apexPage`, taking the first field
PRESENT; otherwise `item-N` with `N` below 10000. -/
def nameBySpecClaim (rand : Nat) (flds : List (String × FieldVal)) : String :=
  firstSomeD
    [fieldIfPresent "name" flds,
     fieldIfPresent "application" flds,
     (fieldIfPresent "layout" flds).map (replaceAll "/" "-"),
     fieldIfPresent "object" flds,
     (fieldIfPresent "field" flds).map (replaceAll "." "-"),
     fieldIfPresent "apexClass" flds,
     fieldIfPresent "apexPage" flds]
    ("item-" ++ toString (rand % 10000))

/-- The naming rule as amended: `name` is taken whenever the field is
present; each later candidate is taken only when present with a non-empty
first value; `layout` and `field` values are escaped as before; otherwise
`item-N` with `N` below 10000. -/
def nameByAmendedSpec (rand : Nat) (flds : List (String × FieldVal)) : String :=
  firstSomeD
    [fieldIfPresent "name" flds,
     fieldIfTruthy "application" flds,
     (fieldIfTruthy "layout" flds).map (replaceAll "/" "-"),
     fieldIfTruthy "object" flds,
     (fieldIfTruthy "field" flds).map (replaceAll "." "-"),
     fieldIfTruthy "apexClass" flds,
     fieldIfTruthy "apexPage" flds]
    ("item-" ++ toString (rand % 10000))

/-! ## Concrete sample data used by counterexamples and witnesses -/

/-- A deterministic instance of the random oracle. -/
def sampleRng : String → Nat → Nat := fun _ i => i

/-- A deterministic instance of the batch-level random oracle. -/
def batchRng : String → String → Nat → Nat := fun _ _ _ => 0

/-- A profile with one category holding a record and a text-only child, and
one empty category. -/
def sampleProfile : Profile :=
  ⟨some "urn:ns1",
   [("classAccesses", [Item.obj [("apexClass", ("Foo", []))], Item.str "junk"]),
    ("emptyCat", [])]⟩

/-- The write event the splitter produces for `sampleProfile`. -/
def sampleWrite : String × String × Profile :=
  ("classAccesses", "Foo.xml",
    artifactDoc (some "urn:ns1") "classAccesses" (Item.obj [("apexClass", ("Foo", []))]))

/-- A profile whose categories are all records with pairwise distinct derived
names. -/
def cleanProfile : Profile :=
  ⟨some "urn:src",
   [("applicationVisibilities",
      [Item.obj [("application", ("App1", []))], Item.obj [("application", ("App2", []))]]),
    ("classAccesses", [Item.obj [("apexClass", ("MyClass", []))]])]⟩

/-- A profile with two distinct records deriving the same artifact name `A`,
plus a category holding only a text-only child. -/
def cexProfile : Profile :=
  ⟨some "urn:old",
   [("x", [Item.obj [("name", ("A", []))],
           Item.obj [("name", ("A", [])), ("object", ("O2", []))]]),
    ("custom", [Item.str "true"])]⟩

/-- A record with an `application` field that is present but empty and an
`object` field with a value. -/
def namerCexRecord : List (String × FieldVal) :=
  [("application", ("", [])), ("object", ("Obj", []))]

/-- A profile with all categories empty. -/
def emptyCatProfile : Profile := ⟨some "urn:e", [("objectPermissions", [])]⟩

/-- A small well-formed profile for batch runs. -/
def okProfile1 : Profile :=
  ⟨some "urn:a", [("classAccesses", [Item.obj [("apexClass", ("A1", []))]])]⟩

/-- A second small well-formed profile for batch runs. -/
def okProfile2 : Profile :=
  ⟨some "urn:b", [("classAccesses", [Item.obj [("apexClass", ("B1", []))]])]⟩

/-- A batch of three profile files whose second file fails to parse. -/
def batch3 : List (String × Except String Profile) :=
  [("Admin", Except.ok okProfile1),
   ("Broken", Except.error "Unexpected close tag"),
   ("Sales", Except.ok okProfile2)]

/-- A batch of two profile files whose second file fails to parse. -/
def batch2 : List (String × Except String Profile) :=
  [("Admin", Except.ok okProfile1), ("Broken", Except.error "bad document")]

/-- An artifact body whose only top-level key is `objectPermissions`. -/
def strayBody : Profile :=
  ⟨none, [("objectPermissions", [Item.obj [("object", ("Acc", []))]])]⟩

/-- A well-matched artifact file for the `fieldPermissions` category. -/
def goodFile : String × ArtifactParse :=
  ("Good.xml",
    Except.ok ("Profile", artifactDoc (some "x") "fieldPermissions" (Item.obj [("name", ("G", []))])))

/-! ## Helper lemmas -/

theorem key_unique {α β : Type _} {l : List (α × β)} (hnd : (l.map Prod.fst).Nodup)
    {a : α} {b b' : β} (h : (a, b) ∈ l) (h' : (a, b') ∈ l) : b = b' := by
  induction l with
  | nil => cases h
  | cons e l ih =>
    simp only [List.map_cons, List.nodup_cons] at hnd
    rcases List.mem_cons.mp h with he | hl
    · rcases List.mem_cons.mp h' with he' | hl'
      · exact congrArg Prod.snd (he.trans he'.symm)
      · exfalso; apply hnd.1; rw [← he]
        simpa using List.mem_map_of_mem Prod.fst hl'
    · rcases List.mem_cons.mp h' with he' | hl'
      · exfalso; apply hnd.1; rw [← he']
        simpa using List.mem_map_of_mem Prod.fst hl
      · exact ih hnd.2 hl hl'

theorem foldl_ite_append {α β : Type _} (P : α → Prop) [DecidablePred P]
    (g : α → List β) :
    ∀ (l : List α) (t : List β),
      l.foldl (fun t e => if P e then t ++ g e else t) t
        = t ++ (l.map (fun e => if P e then g e else [])).flatten := by
  intro l
  induction l with
  | nil => intro t; simp
  | cons a l ih =>
    intro t
    by_cases h : P a <;> simp [h, ih, List.append_assoc]

theorem foldl_congr_middle {γ α : Type _} (f : γ → α → γ) (d₁ d₂ : α)
    (hstep : ∀ acc, f acc d₁ = f acc d₂) :
    ∀ (pre : List α) (post : List α) (init : γ),
      (pre ++ d₁ :: post).foldl f init = (pre ++ d₂ :: post).foldl f init := by
  intro pre
  induction pre with
  | nil => intro post init; simp [hstep]
  | cons a pre ih => intro post init; simp only [List.cons_append, List.foldl_cons]; exact ih post (f init a)

theorem foldl_inv {γ α : Type _} {f : γ → α → γ} {P : γ → Prop}
    (hstep : ∀ c a, P c → P (f c a)) :
    ∀ (l : List α) (c : γ), P c → P (l.foldl f c) := by
  intro l
  induction l with
  | nil => intro c hc; exact hc
  | cons a l ih => intro c hc; exact ih _ (hstep c a hc)

theorem flatten_singleton_map {α β : Type _} (g : α → β) (l : List α) :
    (l.map (fun e => [g e])).flatten = l.map g := by
  induction l with
  | nil => rfl
  | cons a l ih => simp [ih]

theorem filter_flatten {α : Type _} (p : α → Bool) (l : List (List α)) :
    l.flatten.filter p = (l.map (List.filter p)).flatten := by
  induction l with
  | nil => rfl
  | cons s l ih => simp [List.filter_append, ih]

theorem strEndsWith_append (s suff : String) : strEndsWith (s ++ suff) suff = true := by
  show (suff.data.isSuffixOf (s ++ suff).data) = true
  rw [String.data_append]
  unfold List.isSuffixOf
  simp [List.isPrefixOf_iff_prefix]

/-! ## Structure of the split output -/

theorem splitTree_eq_flatten (rng : String → Nat → Nat) (p : Profile) :
    splitTree rng p
      = (p.entries.map (fun e =>
          if 0 < e.2.length then
            [(e.1, splitCategoryDir p.xmlns (rng e.1) e.1 e.2)]
          else [])).flatten := by
  unfold splitTree
  rw [foldl_ite_append (fun e : String × List Item => 0 < e.2.length)
    (fun e => [(e.1, splitCategoryDir p.xmlns (rng e.1) e.1 e.2)]) p.entries []]
  simp

theorem splitWrites_eq_flatten (rng : String → Nat → Nat) (p : Profile) :
    splitWrites rng p
      = (p.entries.map (fun e =>
          if 0 < e.2.length then
            (categoryWrites p.xmlns (rng e.1) e.1 0 e.2).map (fun w => (e.1, w))
          else [])).flatten := by
  unfold splitWrites
  rw [foldl_ite_append (fun e : String × List Item => 0 < e.2.length)
    (fun e => (categoryWrites p.xmlns (rng e.1) e.1 0 e.2).map (fun w => (e.1, w)))
    p.entries []]
  simp

theorem categoryWrites_snd (xm : Option String) (rng : Nat → Nat) (c : String) :
    ∀ (items : List Item) (i : Nat),
      (categoryWrites xm rng c i items).map Prod.snd
        = (items.filter Item.isObj).map (artifactDoc xm c) := by
  intro items
  induction items with
  | nil => intro i; rfl
  | cons it rest ih =>
    intro i
    cases it with
    | str s => simpa [categoryWrites, Item.isObj] using ih (i + 1)
    | obj flds => simpa [categoryWrites, Item.isObj] using ih (i + 1)

theorem categoryWrites_shape (xm : Option String) (rng : Nat → Nat) (c : String) :
    ∀ (items : List Item) (i : Nat) (w : String × Profile),
      w ∈ categoryWrites xm rng c i items →
      ∃ n flds, w = (n ++ ".xml", artifactDoc xm c (Item.obj flds)) := by
  intro items
  induction items with
  | nil => intro i w hw; cases hw
  | cons it rest ih =>
    intro i w hw
    cases it with
    | str s => exact ih (i + 1) w (by simpa [categoryWrites] using hw)
    | obj flds =>
      rcases List.mem_cons.mp (by simpa [categoryWrites] using hw) with he | hrest
      · exact ⟨itemName (rng i) flds, flds, he⟩
      · exact ih (i + 1) w hrest

theorem writeFile_fresh (d : Dir) (fname : String) (content : Profile)
    (h : ∀ f ∈ d, f.1 ≠ fname) :
    writeFile d fname content = d ++ [(fname, content)] := by
  have hfalse : d.any (fun f => f.1 == fname) = false := by
    simp only [List.any_eq_false, beq_iff_eq]
    exact h
  simp [writeFile, hfalse]

theorem replayWrites_fresh :
    ∀ (ws : List (String × Profile)) (d : Dir),
      (ws.map Prod.fst).Nodup →
      (∀ w ∈ ws, ∀ f ∈ d, f.1 ≠ w.1) →
      replayWrites d ws = d ++ ws := by
  intro ws
  induction ws with
  | nil => intro d _ _; simp [replayWrites]
  | cons w ws ih =>
    intro d hnd hfresh
    simp only [List.map_cons, List.nodup_cons] at hnd
    show replayWrites (writeFile d w.1 w.2) ws = d ++ w :: ws
    rw [writeFile_fresh d w.1 w.2 (fun f hf => hfresh w (by simp) f hf)]
    rw [ih (d ++ [(w.1, w.2)]) hnd.2 ?fresh]
    · simp
    case fresh =>
      intro w' hw' f hf
      rcases List.mem_append.mp hf with hfd | hfw
      · exact hfresh w' (List.mem_cons_of_mem _ hw') f hfd
      · have hfe : f = (w.1, w.2) := by simpa using hfw
        rw [hfe]
        intro hEq
        apply hnd.1
        rw [hEq]
        exact List.mem_map_of_mem Prod.fst hw'

theorem splitCategoryDir_eq (xm : Option String) (rng : Nat → Nat) (c : String)
    (items : List Item)
    (hnd : ((categoryWrites xm rng c 0 items).map Prod.fst).Nodup) :
    splitCategoryDir xm rng c items = categoryWrites xm rng c 0 items := by
  unfold splitCategoryDir
  rw [replayWrites_fresh _ [] hnd (fun w _ f hf => absurd hf (List.not_mem_nil f))]
  simp

/-! ## Merge invariants and the merge of a split tree -/

theorem pushItems_xmlns (p : Profile) (cat : String) (items : List Item) :
    (pushItems p cat items).xmlns = p.xmlns := by
  unfold pushItems
  split <;> rfl

theorem mergeStep_xmlns (cat : String) (acc : Profile × List String)
    (f : String × ArtifactParse) : (mergeStep cat acc f).1.xmlns = acc.1.xmlns := by
  unfold mergeStep
  rcases f with ⟨fn, pr⟩
  cases pr with
  | error msg => rfl
  | ok rb =>
    rcases rb with ⟨root, body⟩
    by_cases h : root = "Profile"
    · cases hge : getEntry body cat with
      | none => simp [h, hge]
      | some items =>
        by_cases hl : 0 < items.length <;> simp [h, hge, hl, pushItems_xmlns]
    · simp [h]

theorem mergeCategory_xmlns (acc : Profile × List String)
    (cd : String × List (String × ArtifactParse)) :
    (mergeCategory acc cd).1.xmlns = acc.1.xmlns := by
  unfold mergeCategory
  exact foldl_inv (P := fun a : Profile × List String => a.1.xmlns = acc.1.xmlns)
    (fun a f h => (mergeStep_xmlns cd.1 a f).trans h) _ _ rfl

theorem mergeProfileDoc_xmlns (dirs : List (String × List (String × ArtifactParse))) :
    (mergeProfileDoc dirs).1.xmlns = some canonicalNamespace := by
  unfold mergeProfileDoc
  exact foldl_inv (P := fun a : Profile × List String => a.1.xmlns = some canonicalNamespace)
    (fun a cd h => (mergeCategory_xmlns a cd).trans h) _ _ rfl

theorem getEntry_artifact (xm : Option String) (c : String) (it : Item) :
    getEntry (artifactDoc xm c it) c = some [it] := by
  simp [getEntry, artifactDoc, List.find?]

theorem mergeStep_on_artifact (c : String) (xm : Option String) (q : Profile)
    (rep : List String) (it : Item) (n : String) :
    mergeStep c (q, rep) (n, Except.ok ("Profile", artifactDoc xm c it))
      = (pushItems q c [it], rep) := by
  unfold mergeStep
  simp [getEntry_artifact]

theorem merge_writes_fold (xm : Option String) (rng : Nat → Nat) (c : String) :
    ∀ (items : List Item) (i : Nat) (q : Profile) (rep : List String),
      (∀ it ∈ items, it.isObj = true) →
      ((categoryWrites xm rng c i items).map
          (fun f => (f.1, (Except.ok ("Profile", f.2) : ArtifactParse)))).foldl
          (mergeStep c) (q, rep)
        = (items.foldl (fun a it => pushItems a c [it]) q, rep) := by
  intro items
  induction items with
  | nil => intro i q rep _; rfl
  | cons it rest ih =>
    intro i q rep hobj
    cases it with
    | str s =>
      have hs := hobj (Item.str s) (by simp)
      simp [Item.isObj] at hs
    | obj flds =>
      simp only [categoryWrites, List.map_cons, List.foldl_cons]
      rw [mergeStep_on_artifact]
      exact ih (i + 1) _ rep (fun x hx => hobj x (by simp [hx]))

theorem pushItems_fold_extend (c : String) :
    ∀ (rest : List Item) (E : List (String × List Item)) (done : List Item)
      (xm' : Option String),
      (∀ e ∈ E, e.1 ≠ c) →
      rest.foldl (fun q it => pushItems q c [it]) ⟨xm', E ++ [(c, done)]⟩
        = ⟨xm', E ++ [(c, done ++ rest)]⟩ := by
  intro rest
  induction rest with
  | nil => intro E done xm' hE; simp
  | cons it rest ih =>
    intro E done xm' hE
    simp only [List.foldl_cons]
    have hpush : pushItems ⟨xm', E ++ [(c, done)]⟩ c [it]
        = ⟨xm', E ++ [(c, done ++ [it])]⟩ := by
      unfold pushItems
      have hany : (E ++ [(c, done)]).any (fun e => e.1 == c) = true := by
        simp [List.any_append]
      rw [if_pos hany]
      have hmapE : E.map (fun e => if e.1 == c then (e.1, e.2 ++ [it]) else e) = E := by
        rw [show E = E.map id by simp]
        rw [List.map_map]
        apply List.map_congr_left
        intro e he
        simp [hE e (by simpa using he)]
      simp only [List.map_append, hmapE]
      simp
    rw [hpush, ih E (done ++ [it]) xm' hE]
    simp

theorem pushItems_fold_fresh (c : String) (items : List Item)
    (E : List (String × List Item)) (xm' : Option String)
    (hE : ∀ e ∈ E, e.1 ≠ c) (hne : items ≠ []) :
    items.foldl (fun q it => pushItems q c [it]) ⟨xm', E⟩
      = ⟨xm', E ++ [(c, items)]⟩ := by
  cases items with
  | nil => exact absurd rfl hne
  | cons it rest =>
    simp only [List.foldl_cons]
    have hany : E.any (fun e => e.1 == c) = false := by
      simp only [List.any_eq_false, beq_iff_eq]
      exact hE
    have h1 : pushItems ⟨xm', E⟩ c [it] = ⟨xm', E ++ [(c, [it])]⟩ := by
      unfold pushItems
      simp [hany]
    rw [h1]
    exact pushItems_fold_extend c rest E [it] xm' hE

theorem artifact_files_filter (xm : Option String) (rng : Nat → Nat) (c : String)
    (items : List Item) (i : Nat) :
    ((categoryWrites xm rng c i items).map
        (fun f => (f.1, (Except.ok ("Profile", f.2) : ArtifactParse)))).filter
        (fun f => strEndsWith f.1 ".xml")
      = (categoryWrites xm rng c i items).map
          (fun f => (f.1, (Except.ok ("Profile", f.2) : ArtifactParse))) := by
  apply List.filter_eq_self.mpr
  intro a ha
  rcases List.mem_map.mp ha with ⟨w, hw, hwe⟩
  rcases categoryWrites_shape xm rng c items i w hw with ⟨n, flds, hshape⟩
  rw [← hwe, hshape]
  exact strEndsWith_append n ".xml"

theorem merge_build (xm : Option String) (rng : String → Nat → Nat) :
    ∀ (l : List (String × List Item)) (E : List (String × List Item)),
      (l.map Prod.fst).Nodup →
      (∀ e ∈ l, ∀ e' ∈ E, e'.1 ≠ e.1) →
      (∀ e ∈ l, e.2 ≠ []) →
      (∀ e ∈ l, ∀ it ∈ e.2, it.isObj = true) →
      (l.map (fun e => (e.1,
          (categoryWrites xm (rng e.1) e.1 0 e.2).map
            (fun f => (f.1, (Except.ok ("Profile", f.2) : ArtifactParse)))))).foldl
          mergeCategory (⟨some canonicalNamespace, E⟩, [])
        = (⟨some canonicalNamespace, E ++ l⟩, []) := by
  intro l
  induction l with
  | nil => intro E _ _ _ _; simp
  | cons e l ih =>
    intro E hnd hfresh hne hobj
    simp only [List.map_cons, List.nodup_cons] at hnd
    simp only [List.map_cons, List.foldl_cons]
    have hstep :
        mergeCategory (⟨some canonicalNamespace, E⟩, [])
            (e.1, (categoryWrites xm (rng e.1) e.1 0 e.2).map
              (fun f => (f.1, (Except.ok ("Profile", f.2) : ArtifactParse))))
          = (⟨some canonicalNamespace, E ++ [(e.1, e.2)]⟩, []) := by
      unfold mergeCategory
      rw [artifact_files_filter]
      rw [merge_writes_fold xm (rng e.1) e.1 e.2 0 _ _ (hobj e (by simp))]
      rw [pushItems_fold_fresh e.1 e.2 E (some canonicalNamespace)
        (fun e' he' => hfresh e (by simp) e' he') (hne e (by simp))]
    rw [hstep]
    rw [ih (E ++ [(e.1, e.2)]) hnd.2 ?fresh
      (fun x hx => hne x (by simp [hx])) (fun x hx => hobj x (by simp [hx]))]
    · simp
    case fresh =>
      intro x hx e' he'
      rcases List.mem_append.mp he' with heE | heHead
      · exact hfresh x (by simp [hx]) e' heE
      · have he'' : e' = (e.1, e.2) := by simpa using heHead
        rw [he'']
        intro hEq
        apply hnd.1
        rw [hEq]
        exact List.mem_map_of_mem Prod.fst hx

theorem splitTree_of_clean (rng : String → Nat → Nat) (p : Profile)
    (hne : ∀ e ∈ p.entries, e.2 ≠ [])
    (hnames : ∀ e ∈ p.entries,
      ((categoryWrites p.xmlns (rng e.1) e.1 0 e.2).map Prod.fst).Nodup) :
    splitTree rng p
      = p.entries.map (fun e => (e.1, categoryWrites p.xmlns (rng e.1) e.1 0 e.2)) := by
  rw [splitTree_eq_flatten]
  have hc : p.entries.map (fun e =>
        if 0 < e.2.length then
          [(e.1, splitCategoryDir p.xmlns (rng e.1) e.1 e.2)]
        else [])
      = p.entries.map (fun e => [(e.1, categoryWrites p.xmlns (rng e.1) e.1 0 e.2)]) := by
    apply List.map_congr_left
    intro e he
    rw [if_pos (List.length_pos.mpr (hne e he))]
    rw [splitCategoryDir_eq _ _ _ _ (hnames e he)]
  rw [hc, flatten_singleton_map]

theorem filter_tag_block (c a : String) (ws : List (String × Profile)) :
    ((ws.map (fun w => (a, w))).filter
        (fun w : String × String × Profile => w.1 == c))
      = if a = c then ws.map (fun w => (a, w)) else [] := by
  induction ws with
  | nil => simp
  | cons w ws ih =>
    by_cases h : a = c
    · simp only [List.map_cons, List.filter_cons] at ih ⊢
      simp [h] at ih ⊢
      exact ih
    · simp only [List.map_cons, List.filter_cons] at ih ⊢
      simp [h] at ih ⊢
      exact ih

theorem tagged_filter_of_absent (c : String) (xm : Option String)
    (rng : String → Nat → Nat) :
    ∀ (l : List (String × List Item)), c ∉ l.map Prod.fst →
      ((l.map (fun e =>
          if 0 < e.2.length then
            (categoryWrites xm (rng e.1) e.1 0 e.2).map (fun w => (e.1, w))
          else [])).flatten).filter
          (fun w : String × String × Profile => w.1 == c) = [] := by
  intro l
  induction l with
  | nil => intro _; rfl
  | cons e l ih =>
    intro hc
    simp only [List.map_cons, List.mem_cons, not_or] at hc
    simp only [List.map_cons, List.flatten_cons, List.filter_append]
    rw [ih hc.2]
    by_cases hlen : 0 < e.2.length
    · rw [if_pos hlen, filter_tag_block, if_neg (fun h => hc.1 h.symm)]
      simp
    · rw [if_neg hlen]
      simp

theorem tagged_filter_of_mem (c : String) (items : List Item) (xm : Option String)
    (rng : String → Nat → Nat) :
    ∀ (l : List (String × List Item)), (l.map Prod.fst).Nodup → (c, items) ∈ l →
      ((l.map (fun e =>
          if 0 < e.2.length then
            (categoryWrites xm (rng e.1) e.1 0 e.2).map (fun w => (e.1, w))
          else [])).flatten).filter
          (fun w : String × String × Profile => w.1 == c)
        = if 0 < items.length then
            (categoryWrites xm (rng c) c 0 items).map (fun w => (c, w))
          else [] := by
  intro l
  induction l with
  | nil => intro _ hmem; cases hmem
  | cons e l ih =>
    intro hnd hmem
    simp only [List.map_cons, List.nodup_cons] at hnd
    simp only [List.map_cons, List.flatten_cons, List.filter_append]
    rcases List.mem_cons.mp hmem with he | hl
    · have h1 : e.1 = c := by rw [← he]
      have h2 : e.2 = items := by rw [← he]
      rw [tagged_filter_of_absent c xm rng l (by rw [← h1]; exact hnd.1)]
      by_cases hlen : 0 < e.2.length
      · rw [if_pos hlen, filter_tag_block, if_pos h1]
        rw [if_pos (h2 ▸ hlen)]
        subst h1; subst h2
        simp
      · rw [if_neg hlen, if_neg (h2 ▸ hlen)]
        simp
    · have h1 : e.1 ≠ c := by
        intro h
        apply hnd.1
        rw [h]
        exact List.mem_map_of_mem Prod.fst hl
      rw [ih hnd.2 hl]
      by_cases hlen : 0 < e.2.length
      · rw [if_pos hlen, filter_tag_block, if_neg h1]
        simp
      · rw [if_neg hlen]
        simp

theorem mem_splitTree (rng : String → Nat → Nat) (p : Profile) (d : String × Dir)
    (hd : d ∈ splitTree rng p) :
    ∃ e ∈ p.entries, d.1 = e.1 ∧ 0 < e.2.length := by
  rw [splitTree_eq_flatten] at hd
  rcases List.mem_flatten.mp hd with ⟨s, hs, hds⟩
  rcases List.mem_map.mp hs with ⟨e, he, rfl⟩
  by_cases hlen : 0 < e.2.length
  · rw [if_pos hlen] at hds
    have hde : d = (e.1, splitCategoryDir p.xmlns (rng e.1) e.1 e.2) := by
      simpa using hds
    exact ⟨e, he, congrArg Prod.fst hde, hlen⟩
  · rw [if_neg hlen] at hds
    cases hds

theorem splitTree_empty_of_all_empty (rng : String → Nat → Nat) (p : Profile)
    (h : ∀ e ∈ p.entries, e.2 = []) : splitTree rng p = [] := by
  rw [splitTree_eq_flatten]
  have hc : p.entries.map (fun e =>
        if 0 < e.2.length then
          [(e.1, splitCategoryDir p.xmlns (rng e.1) e.1 e.2)]
        else [])
      = p.entries.map (fun _ => ([] : SplitTree)) := by
    apply List.map_congr_left
    intro e he
    rw [if_neg (by simp [h e he])]
  rw [hc]
  induction p.entries with
  | nil => rfl
  | cons e l ih => simp [ih]

theorem mergeStep_skip (c : String) (acc : Profile × List String)
    (fname root : String) (body : Profile)
    (hskip : root ≠ "Profile" ∨ getEntry body c = none ∨ getEntry body c = some []) :
    mergeStep c acc (fname, Except.ok (root, body)) = acc := by
  unfold mergeStep
  rcases hskip with h | h | h
  · simp [h]
  · by_cases hr : root = "Profile" <;> simp [hr, h]
  · by_cases hr : root = "Profile" <;> simp [hr, h]

theorem mergeCategory_skip_middle (c : String)
    (fs1 fs2 : List (String × ArtifactParse)) (f : String × ArtifactParse)
    (hid : ∀ acc, mergeStep c acc f = acc) (acc : Profile × List String) :
    mergeCategory acc (c, fs1 ++ f :: fs2) = mergeCategory acc (c, fs1 ++ fs2) := by
  unfold mergeCategory
  simp only [List.filter_append, List.filter_cons]
  by_cases hf : strEndsWith f.1 ".xml" = true
  · rw [if_pos hf]
    simp [List.foldl_append, List.foldl_cons, hid]
  · rw [if_neg hf]

/-! ## Claim theorems -/

/-- Claim C1, counterexample to the claim as stated: `cexProfile` has
categories `x` (two distinct records, both deriving the artifact name `A`)
and `custom` (one text-only child), yet merging its split tree yields only
category `x` with a single record: the overwritten artifact loses a record
(not the same multiset) and the `custom` category disappears (not the same
set of category names). -/
theorem merge_split_roundtrip_cex :
    cexProfile.entries.map Prod.fst = ["x", "custom"]
      ∧ (getEntry cexProfile "x").map List.length = some 2
      ∧ (mergeProfileDoc (toMergeInput (splitTree sampleRng cexProfile))).1.entries.map
          Prod.fst = ["x"]
      ∧ (getEntry (mergeProfileDoc
          (toMergeInput (splitTree sampleRng cexProfile))).1 "x").map List.length
          = some 1 := by
  refine ⟨?_, ?_, ?_, ?_⟩ <;> decide

/-- Claim C1 (amended): for every Document whose categories are all
non-empty, whose category children are all records, and whose derived
artifact file names are pairwise distinct within each category, merging the
split tree produced by splitting the Document yields exactly the Document's
categories with exactly the Document's records per category (in order, hence
the same sets and multisets), with the root attributes replaced by the
canonical namespace constant, and with no error reported. -/
theorem merge_split_roundtrip_amended (rng : String → Nat → Nat) (p : Profile)
    (hkeys : (p.entries.map Prod.fst).Nodup)
    (hne : ∀ e ∈ p.entries, e.2 ≠ [])
    (hobj : ∀ e ∈ p.entries, ∀ it ∈ e.2, it.isObj = true)
    (hnames : ∀ e ∈ p.entries,
      ((categoryWrites p.xmlns (rng e.1) e.1 0 e.2).map Prod.fst).Nodup) :
    mergeProfileDoc (toMergeInput (splitTree rng p))
      = (⟨some canonicalNamespace, p.entries⟩, []) := by
  rw [splitTree_of_clean rng p hne hnames]
  unfold toMergeInput mergeProfileDoc
  rw [List.map_map]
  have hmb := merge_build p.xmlns rng p.entries []
    hkeys (fun e _ e' he' => absurd he' (List.not_mem_nil e')) hne hobj
  simpa [Function.comp] using hmb

/-- Witness for the amended claim C1 at a concrete clean profile. -/
theorem merge_split_roundtrip_amended_witness :
    mergeProfileDoc (toMergeInput (splitTree sampleRng cleanProfile))
      = (⟨some canonicalNamespace, cleanProfile.entries⟩, []) :=
  merge_split_roundtrip_amended sampleRng cleanProfile
    (by decide) (by decide) (by decide) (by decide)

/-- Claim C2: in a batch where one unit's document fails to parse, that
unit's work is abandoned with an error report carrying the unit's name and
the underlying message, and every sibling unit of the batch is still
processed (its own processing event appears in the run). -/
theorem split_batch_isolation (rng : String → String → Nat → Nat)
    (shouldDelete : Bool)
    (files pre post : List (String × Except String Profile)) (name msg : String)
    (hfiles : files = pre ++ (name, Except.error msg) :: post) :
    splitUnit (rng name) name (Except.error msg)
        = Except.error (splitErrorReport name msg)
      ∧ RunEvent.unitError (splitErrorReport name msg)
          ∈ splitRun rng shouldDelete files
      ∧ ∀ u ∈ pre ++ post, unitEvent rng u ∈ splitRun rng shouldDelete files := by
  subst hfiles
  refine ⟨rfl, ?_, ?_⟩
  · apply List.mem_append_left
    exact List.mem_map.mpr ⟨(name, Except.error msg), by simp, rfl⟩
  · intro u hu
    apply List.mem_append_left
    apply List.mem_map.mpr
    refine ⟨u, ?_, rfl⟩
    rcases List.mem_append.mp hu with h | h
    · exact List.mem_append_left _ h
    · exact List.mem_append_right _ (List.mem_cons_of_mem _ h)

/-- Witness for claim C2 on a three-unit batch whose second unit fails. -/
theorem split_batch_isolation_witness :
    RunEvent.unitError (splitErrorReport "Broken" "Unexpected close tag")
        ∈ splitRun batchRng false batch3
      ∧ unitEvent batchRng ("Sales", Except.ok okProfile2)
          ∈ splitRun batchRng false batch3 :=
  ⟨(split_batch_isolation batchRng false batch3
      [("Admin", Except.ok okProfile1)] [("Sales", Except.ok okProfile2)]
      "Broken" "Unexpected close tag" rfl).2.1,
   (split_batch_isolation batchRng false batch3
      [("Admin", Except.ok okProfile1)] [("Sales", Except.ok okProfile2)]
      "Broken" "Unexpected close tag" rfl).2.2
      ("Sales", Except.ok okProfile2) (by simp)⟩

/-- Claim C3, counterexample to the claim as stated: in a two-unit batch with
the delete flag set whose second unit fails to parse, the failure is reported
but the failed unit's original is deleted all the same (the deletion loop of
`Split.run` deletes every file of the batch). -/
theorem delete_originals_failed_unit_cex :
    RunEvent.unitError (splitErrorReport "Broken" "bad document")
        ∈ splitRun batchRng true batch2
      ∧ RunEvent.deleteOriginal "Broken" ∈ splitRun batchRng true batch2
      ∧ RunEvent.deleteOriginal "Admin" ∈ splitRun batchRng true batch2 := by
  refine ⟨?_, ?_, ?_⟩ <;> decide

/-- Claim C3 (amended): with the delete flag set, deletion of originals
happens only after every unit of the batch has been processed (the run is a
block of processing events followed by a block of deletion events), every
unit of the batch is processed, and EVERY unit's original is deleted — the
successfully processed ones and also the failed ones. -/
theorem delete_after_processing_amended (rng : String → String → Nat → Nat)
    (files : List (String × Except String Profile)) :
    ∃ A B, splitRun rng true files = A ++ B
      ∧ (∀ e ∈ A, e.isProcessing = true)
      ∧ (∀ e ∈ B, e.isDelete = true)
      ∧ B = files.map (fun u => RunEvent.deleteOriginal u.1)
      ∧ ∀ u ∈ files, unitEvent rng u ∈ A := by
  refine ⟨files.map (unitEvent rng),
    files.map (fun u => RunEvent.deleteOriginal u.1),
    by simp [splitRun], ?_, ?_, rfl, ?_⟩
  · intro e he
    rcases List.mem_map.mp he with ⟨u, hu, rfl⟩
    unfold unitEvent
    cases splitUnit (rng u.1) u.1 u.2 <;> rfl
  · intro e he
    rcases List.mem_map.mp he with ⟨u, hu, rfl⟩
    rfl
  · intro u hu
    exact List.mem_map_of_mem _ hu

/-- Witness for the amended claim C3 on a concrete two-unit batch. -/
theorem delete_after_processing_amended_witness :
    ∃ A B, splitRun batchRng true batch2 = A ++ B
      ∧ (∀ e ∈ A, e.isProcessing = true)
      ∧ (∀ e ∈ B, e.isDelete = true)
      ∧ B = batch2.map (fun u => RunEvent.deleteOriginal u.1)
      ∧ ∀ u ∈ batch2, unitEvent batchRng u ∈ A :=
  delete_after_processing_amended batchRng batch2

/-- Claim C4: for a parsed profile with distinct category keys, the artifact
writes the splitter performs into a category's subdirectory are exactly one
write per record of that category, in order, each carrying exactly that
record — no record is silently dropped, and a category with no records
produces no writes. -/
theorem split_writes_one_per_record (rng : String → Nat → Nat) (p : Profile)
    (c : String) (items : List Item)
    (hkeys : (p.entries.map Prod.fst).Nodup)
    (hmem : (c, items) ∈ p.entries) :
    ((splitWrites rng p).filter (fun w => w.1 == c)).map (fun w => w.2.2)
      = (items.filter Item.isObj).map (artifactDoc p.xmlns c) := by
  rw [splitWrites_eq_flatten]
  rw [tagged_filter_of_mem c items p.xmlns rng p.entries hkeys hmem]
  by_cases hlen : 0 < items.length
  · rw [if_pos hlen, List.map_map]
    have hcomp : ((fun w : String × String × Profile => w.2.2)
          ∘ (fun w : String × Profile => (c, w)))
        = Prod.snd := rfl
    rw [hcomp, categoryWrites_snd]
  · rw [if_neg hlen]
    have hnil : items = [] := by
      cases items with
      | nil => rfl
      | cons a l => exact absurd (by simp) hlen
    subst hnil
    simp

/-- Witness for claim C4 on `sampleProfile`'s record-bearing category. -/
theorem split_writes_one_per_record_witness :
    ((splitWrites sampleRng sampleProfile).filter
        (fun w => w.1 == "classAccesses")).map (fun w => w.2.2)
      = ([Item.obj [("apexClass", ("Foo", []))], Item.str "junk"].filter
          Item.isObj).map (artifactDoc (some "urn:ns1") "classAccesses") :=
  split_writes_one_per_record sampleRng sampleProfile "classAccesses"
    [Item.obj [("apexClass", ("Foo", []))], Item.str "junk"] (by decide) (by decide)

/-- Claim C5: every artifact the splitter writes carries the source
document's root attributes (`_xmlns` copied from the profile) and consists
of exactly one category entry holding exactly the one record written — a
miniature document of the same shape as the original. -/
theorem split_artifact_root_attrs (rng : String → Nat → Nat) (p : Profile)
    (w : String × String × Profile) (hw : w ∈ splitWrites rng p) :
    w.2.2.xmlns = p.xmlns ∧ ∃ it, w.2.2.entries = [(w.1, [it])] := by
  rw [splitWrites_eq_flatten] at hw
  rcases List.mem_flatten.mp hw with ⟨s, hs, hws⟩
  rcases List.mem_map.mp hs with ⟨e, he, rfl⟩
  by_cases hlen : 0 < e.2.length
  · rw [if_pos hlen] at hws
    rcases List.mem_map.mp hws with ⟨w', hw', rfl⟩
    rcases categoryWrites_shape p.xmlns (rng e.1) e.1 e.2 0 w' hw' with ⟨n, flds, rfl⟩
    exact ⟨rfl, Item.obj flds, rfl⟩
  · rw [if_neg hlen] at hws
    cases hws

/-- Witness for claim C5 at the concrete write of `sampleProfile`. -/
theorem split_artifact_root_attrs_witness :
    sampleWrite.2.2.xmlns = sampleProfile.xmlns
      ∧ ∃ it, sampleWrite.2.2.entries = [(sampleWrite.1, [it])] :=
  split_artifact_root_attrs sampleRng sampleProfile sampleWrite (by decide)

/-- Claim C6, counterexample to the claim as stated: on a record whose
`application` field is present with an empty value and whose `object` field
holds `Obj`, the claimed first-field-present rule names the record by
`application` (the empty string) while the code skips the empty
`application` and names it `Obj`. -/
theorem namer_first_present_cex :
    nameBySpecClaim 0 namerCexRecord = ""
      ∧ itemName 0 namerCexRecord = "Obj"
      ∧ itemName 0 namerCexRecord ≠ nameBySpecClaim 0 namerCexRecord := by
  refine ⟨?_, ?_, ?_⟩ <;> decide

/-- Claim C6 (amended): the Record Namer follows the ordered precedence list
`name`, `application`, `layout` (`/` replaced by `-`), `object`, `field`
(`.` replaced by `-`), `apexClass`, `apexPage`, where `name` is taken
whenever the field is present and every later candidate is taken only when
present with a non-empty first value; if no candidate qualifies the name is
`item-N` for the random draw `N` below 10000. -/
theorem namer_precedence_amended (rand : Nat) (flds : List (String × FieldVal)) :
    itemName rand flds = nameByAmendedSpec rand flds := by
  unfold itemName nameByAmendedSpec
  cases h1 : getField flds "name" with
  | some v => simp [firstSomeD, fieldIfPresent, h1]
  | none =>
    cases h2 : truthyFirst (getField flds "application") with
    | some s => simp [firstSomeD, fieldIfPresent, fieldIfTruthy, h1, h2]
    | none =>
      cases h3 : truthyFirst (getField flds "layout") with
      | some s =>
        simp [firstSomeD, fieldIfPresent, fieldIfTruthy, replaceAll, h1, h2, h3]
      | none =>
        cases h4 : truthyFirst (getField flds "object") with
        | some s =>
          simp [firstSomeD, fieldIfPresent, fieldIfTruthy, replaceAll, h1, h2, h3, h4]
        | none =>
          cases h5 : truthyFirst (getField flds "field") with
          | some s =>
            simp [firstSomeD, fieldIfPresent, fieldIfTruthy, replaceAll,
              h1, h2, h3, h4, h5]
          | none =>
            cases h6 : truthyFirst (getField flds "apexClass") with
            | some s =>
              simp [firstSomeD, fieldIfPresent, fieldIfTruthy, replaceAll,
                h1, h2, h3, h4, h5, h6]
            | none =>
              cases h7 : truthyFirst (getField flds "apexPage") with
              | some s =>
                simp [firstSomeD, fieldIfPresent, fieldIfTruthy, replaceAll,
                  h1, h2, h3, h4, h5, h6, h7]
              | none =>
                simp [firstSomeD, fieldIfPresent, fieldIfTruthy, replaceAll,
                  h1, h2, h3, h4, h5, h6, h7]

/-- Witness for the amended claim C6 at a concrete record. -/
theorem namer_precedence_amended_witness :
    itemName 7 [("object", ("Account", []))]
      = nameByAmendedSpec 7 [("object", ("Account", []))] :=
  namer_precedence_amended 7 [("object", ("Account", []))]

/-- Claim C7: the merged document's root attribute is the canonical constant
namespace identifier, whatever the input artifacts hold. -/
theorem merge_root_attrs_canonical
    (dirs : List (String × List (String × ArtifactParse))) :
    (mergeProfileDoc dirs).1.xmlns = some canonicalNamespace :=
  mergeProfileDoc_xmlns dirs

/-- Witness for claim C7 on a concrete split directory. -/
theorem merge_root_attrs_canonical_witness :
    (mergeProfileDoc [("fieldPermissions", [goodFile])]).1.xmlns
      = some canonicalNamespace :=
  merge_root_attrs_canonical [("fieldPermissions", [goodFile])]

/-- Claim C8: for a parsed profile with distinct category keys, a category
whose child list is empty gets no subdirectory in the split tree. -/
theorem empty_category_no_subdir (rng : String → Nat → Nat) (p : Profile)
    (c : String)
    (hkeys : (p.entries.map Prod.fst).Nodup)
    (hmem : (c, []) ∈ p.entries) :
    c ∉ (splitTree rng p).map Prod.fst := by
  intro hc
  rcases List.mem_map.mp hc with ⟨d, hd, hdc⟩
  rcases mem_splitTree rng p d hd with ⟨e, he, hde, hlen⟩
  have h1 : e.1 = c := by rw [← hde]; exact hdc
  have hc2 : (c, e.2) ∈ p.entries := by rw [← h1]; exact he
  have h2 : e.2 = [] := key_unique hkeys hc2 hmem
  rw [h2] at hlen
  exact absurd hlen (by simp)

/-- Witness for claim C8 at `sampleProfile`'s empty category. -/
theorem empty_category_no_subdir_witness :
    "emptyCat" ∉ (splitTree sampleRng sampleProfile).map Prod.fst :=
  empty_category_no_subdir sampleRng sampleProfile "emptyCat" (by decide) (by decide)

/-- Claim C9: an artifact file whose parsed document has a root other than
`Profile`, lacks a top-level key equal to its category's directory name, or
holds an empty list under that key contributes no records and no error
report: merging with the file present equals merging with it absent, so the
remaining artifacts and categories are processed unchanged. -/
theorem merge_skips_mismatched_artifact
    (pre post : List (String × List (String × ArtifactParse))) (c : String)
    (fs1 fs2 : List (String × ArtifactParse)) (fname root : String) (body : Profile)
    (hskip : root ≠ "Profile" ∨ getEntry body c = none ∨ getEntry body c = some []) :
    mergeProfileDoc (pre ++ (c, fs1 ++ (fname, Except.ok (root, body)) :: fs2) :: post)
      = mergeProfileDoc (pre ++ (c, fs1 ++ fs2) :: post) := by
  unfold mergeProfileDoc
  exact foldl_congr_middle mergeCategory _ _
    (fun acc => mergeCategory_skip_middle c fs1 fs2 _
      (fun a => mergeStep_skip c a fname root body hskip) acc)
    pre post _

/-- Witness for claim C9: a stray artifact lacking the `fieldPermissions`
key is skipped silently. -/
theorem merge_skips_mismatched_artifact_witness :
    mergeProfileDoc
        [("fieldPermissions",
          [("stray.xml", Except.ok ("Profile", strayBody)), goodFile])]
      = mergeProfileDoc [("fieldPermissions", [goodFile])] :=
  merge_skips_mismatched_artifact [] [] "fieldPermissions" [] [goodFile]
    "stray.xml" "Profile" strayBody (by decide)

/-- Claim C10: on a successfully parsed profile document all of whose
categories are empty, the splitter still creates the profile directory (the
successful outcome) while writing no category subdirectory into it. -/
theorem profile_dir_created_even_if_empty (rng : String → Nat → Nat)
    (profileName : String) (p : Profile)
    (h : ∀ e ∈ p.entries, e.2 = []) :
    splitUnit rng profileName (Except.ok p) = Except.ok [] := by
  show Except.ok (splitTree rng p) = Except.ok ([] : SplitTree)
  rw [splitTree_empty_of_all_empty rng p h]

/-- Witness for claim C10 at a concrete profile with one empty category. -/
theorem profile_dir_created_even_if_empty_witness :
    splitUnit sampleRng "Admin" (Except.ok emptyCatProfile) = Except.ok [] :=
  profile_dir_created_even_if_empty sampleRng "Admin" emptyCatProfile (by decide)
